import Mathlib

/-!
Shallow embedding of `src/hashmap.c` (ethana56/HashMap): a separately
chained hash table with caller-supplied hash, comparison and allocator
capabilities, a fixed growth sequence `sizes`, and three operations
(`hashmap_new`, `hashmap_get`, `hashmap_set`).

Modelling conventions:
* Keys are values of an abstract type `K`; the caller's callbacks become
  functions `get_hash : K → ℕ` (the C `unsigned long long` hash) and
  `compare : K → K → ℤ` (equality holds when the result is `0`, as in C).
* A chain (`struct bucket_node` list linked by `next`) is a `List (Node K)`;
  append-at-tail becomes list append.  The bucket array is a
  `List (List (Node K))`.
* `size_t` and `unsigned long long` arithmetic is `ℕ`; the sizes involved
  are far below any overflow, so no modular reduction is needed.
* The `double` field `load_factor` is modelled as `ℚ`; the C assignment
  `num_elements_grow = sizes[cur_size] * load_factor` truncates the
  nonnegative product to an integer: `(… : ℚ).floor.toNat`.
* The allocator is modelled by explicit success/failure booleans threaded
  into each operation (`true` = the allocation succeeds).  `hashmap_new`
  additionally returns the trace of allocation identifiers it acquired and
  released, so that construction-time unwinding is observable.
* In `copy_elements` mode the C code stores a byte-for-byte copy of the
  key; a copy is value-identical to the original, so the materialised key
  is the same `K` value, but the extra allocation (and its release on
  failure) is tracked.
* `hashmap_get` is compiled to a function returning the table state it
  leaves behind and the number of allocator calls it makes, mirroring that
  the C function writes no field of the table and never calls the
  allocator.
-/

set_option autoImplicit false

namespace HashMapC

variable {K : Type}

/-- One `struct bucket_node`: the stored key handle and the cached hash.
The `next` pointer is represented by the enclosing list structure. -/
structure Node (K : Type) where
  key : K
  hash : ℕ
  deriving Repr, DecidableEq

/-- The `struct hashmap` record.  `num_sizes` is `sizes.length`;
`element_size` only feeds `memcpy` and has no observable counterpart. -/
structure HashMap (K : Type) where
  get_hash : K → ℕ
  compare : K → K → ℤ
  sizes : List ℕ
  cur_size : ℕ
  num_elements : ℕ
  num_elements_grow : ℕ
  load_factor : ℚ
  copy_elements : Bool
  bucket_array : List (List (Node K))

/-- The `struct hashmap_config` argument of `hashmap_new`. -/
structure HashConfig (K : Type) where
  get_hash : K → ℕ
  compare : K → K → ℤ
  sizes : List ℕ
  load_factor : ℚ
  copy_elements : Bool

/-- Allocation outcomes for the (at most three) allocations one
`hashmap_set` call can make, in program order: the bucket array of a
resize, the key copy of `hashmap_get_key_to_use`, and the chain node of
`hashmap_bucket_node_create`. -/
structure AllocPlan where
  resize_array_ok : Bool
  key_copy_ok : Bool
  node_ok : Bool
  deriving Repr, DecidableEq

/-- `hashmap_allocate_bucket_array`: allocate `num_buckets` slots and
zero-initialise every chain head. -/
def hashmap_allocate_bucket_array (ok : Bool) (num_buckets : ℕ) :
    Option (List (List (Node K))) :=
  if ok then some (List.replicate num_buckets []) else none

/-- `hashmap_new`.  The three allocations are the table record (id 1),
the copy of `sizes` (id 2) and the initial bucket array (id 3); the
second and third components are the identifiers allocated and the
identifiers released during the call, in order. -/
def hashmap_new (cfg : HashConfig K) (ok1 ok2 ok3 : Bool) :
    Option (HashMap K) × List ℕ × List ℕ :=
  if ok1 = false then (none, [], [])
  else if ok2 = false then (none, [1], [1])
  else
    match hashmap_allocate_bucket_array ok3 (cfg.sizes.getD 0 0) with
    | none => (none, [1, 2], [2, 1])
    | some arr =>
      (some { get_hash := cfg.get_hash
              compare := cfg.compare
              sizes := cfg.sizes
              cur_size := 0
              num_elements := 0
              num_elements_grow :=
                (((cfg.sizes.getD 0 0 : ℚ) * cfg.load_factor).floor).toNat
              load_factor := cfg.load_factor
              copy_elements := cfg.copy_elements
              bucket_array := arr },
       [1, 2, 3], [])

/-- `hashmap_bucket_node_create`: allocate a node holding `key` and the
cached `hash`, with a null `next`. -/
def hashmap_bucket_node_create (ok : Bool) (key : K) (hash : ℕ) :
    Option (Node K) :=
  if ok then some { key := key, hash := hash } else none

/-- `hashmap_add_key_to_bucket`, acting on one chain.  The `while` loop
visits a node only while `cur_node->next != NULL`, so the chain's tail is
never compared; a first match among non-tail nodes replaces that node's
key in place (keeping its cached hash), otherwise a fresh node is
appended after the tail.  Returns the updated chain and whether a node
was appended (`++hashmap->num_elements` runs exactly then), or `none`
when node allocation fails. -/
def hashmap_add_key_to_bucket (compare : K → K → ℤ) (key : K) (hash : ℕ)
    (nodeOk : Bool) : List (Node K) → Option (List (Node K) × Bool)
  | [] =>
    match hashmap_bucket_node_create nodeOk key hash with
    | none => none
    | some new_node => some ([new_node], true)
  | [n] =>
    match hashmap_bucket_node_create nodeOk key hash with
    | none => none
    | some new_node => some ([n, new_node], true)
  | n :: m :: rest =>
    if compare n.key key = 0 then
      some ({ key := key, hash := n.hash } :: m :: rest, false)
    else
      (hashmap_add_key_to_bucket compare key hash nodeOk (m :: rest)).map
        (fun r => (n :: r.1, r.2))

/-- `hashmap_get_key_to_use`: in `copy_elements` mode allocate table-owned
storage and byte-copy the key (the copy is value-identical), otherwise
store the caller's handle itself. -/
def hashmap_get_key_to_use (hm : HashMap K) (key : K) (ok : Bool) :
    Option K :=
  if hm.copy_elements then (if ok then some key else none) else some key

/-- `hashmap_add_key`.  Returns the C result (`0` success, `-1` failure),
the table state after the call, and whether the key copy made by
`hashmap_get_key_to_use` was released on failure (the C test
`key != key_to_use` holds exactly when a copy was made). -/
def hashmap_add_key (hm : HashMap K) (key : K) (keyOk nodeOk : Bool) :
    ℤ × HashMap K × Bool :=
  match hashmap_get_key_to_use hm key keyOk with
  | none => (-1, hm, false)
  | some key_to_use =>
    let hash := hm.get_hash key_to_use
    let index := hash % hm.sizes.getD hm.cur_size 0
    let bucket := hm.bucket_array.getD index []
    match hashmap_add_key_to_bucket hm.compare key_to_use hash nodeOk bucket with
    | none => (-1, hm, hm.copy_elements)
    | some (bucket2, appended) =>
      (0,
       { hm with
          bucket_array := hm.bucket_array.set index bucket2
          num_elements := hm.num_elements + (if appended then 1 else 0) },
       false)

/-- `hashmap_add_node_to_bucket`: append an already-detached node at the
tail of a chain (head position when the chain is empty). -/
def hashmap_add_node_to_bucket (bucket : List (Node K)) (node : Node K) :
    List (Node K) :=
  bucket ++ [node]

/-- One iteration of the inner loop of `hashmap_rehash`: place one node
into the chain `cur_node->hash % newSize` of the array under
construction. -/
def hashmap_rehash_node (newSize : ℕ) (arr : List (List (Node K)))
    (node : Node K) : List (List (Node K)) :=
  let index := node.hash % newSize
  arr.set index (hashmap_add_node_to_bucket (arr.getD index []) node)

/-- `hashmap_rehash`: walk the first `size` chains of the old bucket
array, detaching each node in chain order and re-appending it into the
new array (`hashmap->bucket_array`, whose length selects indices modulo
`sizes[cur_size]` = `newSize`). -/
def hashmap_rehash (newSize : ℕ) (arr : List (List (Node K)))
    (old_bucket_array : List (List (Node K))) (size : ℕ) :
    List (List (Node K)) :=
  (old_bucket_array.take size).foldl
    (fun a chain => chain.foldl (hashmap_rehash_node newSize) a) arr

/-- `hashmap_resize`.  A no-op success at the last growth size; otherwise
allocate the next bucket array (failure leaves the table untouched),
advance `cur_size`, recompute the growth threshold, rehash the old
chains, and release the old array. -/
def hashmap_resize (hm : HashMap K) (arrOk : Bool) : ℤ × HashMap K :=
  if hm.cur_size = hm.sizes.length - 1 then (0, hm)
  else
    match hashmap_allocate_bucket_array arrOk (hm.sizes.getD (hm.cur_size + 1) 0) with
    | none => (-1, hm)
    | some new_bucket_array =>
      let cur2 := hm.cur_size + 1
      let newSize := hm.sizes.getD cur2 0
      let grow2 := (((newSize : ℚ) * hm.load_factor).floor).toNat
      let arr2 := hashmap_rehash newSize new_bucket_array hm.bucket_array
        (hm.sizes.getD (cur2 - 1) 0)
      (0, { hm with
              cur_size := cur2
              bucket_array := arr2
              num_elements_grow := grow2 })

/-- `hashmap_find_in_bucket`: scan a chain from the head, stopping at the
first node whose key compares equal to the argument. -/
def hashmap_find_in_bucket (compare : K → K → ℤ) (key : K) :
    List (Node K) → Option (Node K)
  | [] => none
  | n :: rest =>
    if compare n.key key = 0 then some n
    else hashmap_find_in_bucket compare key rest

/-- `hashmap_get`.  Returns the table state left behind, the number of
allocator calls made, and the result (`found->key` or null): the C body
assigns no field of the table and never invokes the allocator. -/
def hashmap_get (hm : HashMap K) (key : K) :
    HashMap K × ℕ × Option K :=
  let hash := hm.get_hash key
  let index := hash % hm.sizes.getD hm.cur_size 0
  let bucket := hm.bucket_array.getD index []
  let found := hashmap_find_in_bucket hm.compare key bucket
  (hm, 0, match found with | none => none | some n => some n.key)

/-- The value `hashmap_get` returns to its caller. -/
def hashmap_getv (hm : HashMap K) (key : K) : Option K :=
  (hashmap_get hm key).2.2

/-- `hashmap_set`: attempt a resize when `num_elements` has reached the
stored growth threshold, then insert-or-update. -/
def hashmap_set (hm : HashMap K) (key : K) (plan : AllocPlan) :
    ℤ × HashMap K × Bool :=
  if hm.num_elements = hm.num_elements_grow then
    match hashmap_resize hm plan.resize_array_ok with
    | (r, hm2) =>
      if r < 0 then (-1, hm2, false)
      else hashmap_add_key hm2 key plan.key_copy_ok plan.node_ok
  else hashmap_add_key hm key plan.key_copy_ok plan.node_ok

/-! ### Derived definitions used by the specification statements -/

/-- The multiset of chain nodes reachable from a bucket array. -/
def nodesOf (arr : List (List (Node K))) : Multiset (Node K) :=
  (arr.flatten : Multiset (Node K))

/-- Every node of the bucket array sits in the chain its cached hash
selects modulo `s`. -/
def PlacedOK (s : ℕ) (arr : List (List (Node K))) : Prop :=
  ∀ (i : ℕ) (hi : i < arr.length), ∀ n ∈ arr[i], n.hash % s = i

/-- Well-formedness: the growth index is in range, the bucket array
length matches the current size, and all configured sizes are
positive. -/
def WF (hm : HashMap K) : Prop :=
  hm.cur_size < hm.sizes.length ∧
  hm.bucket_array.length = hm.sizes.getD hm.cur_size 0 ∧
  ∀ s ∈ hm.sizes, 0 < s

/-- A sequence of `hashmap_set` calls, each with its own allocation
outcomes, applied in order. -/
def applySets (hm : HashMap K) (ops : List (K × AllocPlan)) : HashMap K :=
  ops.foldl (fun h op => (hashmap_set h op.1 op.2).2.1) hm

/-- The table `hashmap_new` builds when all three allocations succeed
(the body of the success path of `hashmap_new`). -/
def newTable (cfg : HashConfig K) : HashMap K :=
  { get_hash := cfg.get_hash
    compare := cfg.compare
    sizes := cfg.sizes
    cur_size := 0
    num_elements := 0
    num_elements_grow :=
      (((cfg.sizes.getD 0 0 : ℚ) * cfg.load_factor).floor).toNat
    load_factor := cfg.load_factor
    copy_elements := cfg.copy_elements
    bucket_array := List.replicate (cfg.sizes.getD 0 0) [] }

/-! ### Concrete instances used in closed statements -/

/-- A concrete configuration over natural-number keys: identity hash,
equality comparison, growth sequence `[4, 8]`, load factor `3/4`, no key
copying. -/
def exCfg : HashConfig ℕ :=
  { get_hash := fun n => n
    compare := fun a b => if a = b then 0 else 1
    sizes := [4, 8]
    load_factor := 3/4
    copy_elements := false }

/-- The same configuration with growth sequence `[4, 8, 16]`. -/
def exCfg3 : HashConfig ℕ := { exCfg with sizes := [4, 8, 16] }

/-- The all-successful allocation plan. -/
def okPlan : AllocPlan :=
  { resize_array_ok := true, key_copy_ok := true, node_ok := true }

/-- The table a successful `hashmap_new` returns (all three allocations
succeed); the fallback record is never reached. -/
def newD (cfg : HashConfig ℕ) : HashMap ℕ :=
  ((hashmap_new cfg true true true).1).getD
    { get_hash := fun n => n
      compare := fun _ _ => 0
      sizes := []
      cur_size := 0
      num_elements := 0
      num_elements_grow := 0
      load_factor := 0
      copy_elements := false
      bucket_array := [] }

/-- One `hashmap_set` call with every allocation succeeding. -/
def setD (hm : HashMap ℕ) (key : ℕ) : HashMap ℕ :=
  (hashmap_set hm key okPlan).2.1

/-- The table `exCfg` yields after inserting the keys 0, 1 and 2 with
every allocation succeeding. -/
def exT3 : HashMap ℕ := setD (setD (setD (newD exCfg) 0) 1) 2

/-- The table `exCfg3` yields after inserting the keys 0, 1 and 2. -/
def exC9T3 : HashMap ℕ := setD (setD (setD (newD exCfg3) 0) 1) 2

/-- `exC9T3` after additionally inserting the key 3 (the fourth distinct
key, which makes the load reach the growth threshold). -/
def exC9T4 : HashMap ℕ := setD exC9T3 3

/-- A small concrete table whose bucket 0 chain holds the keys 4 and 6;
two elements, growth threshold 1 (already passed, so `hashmap_set` will
not attempt a resize because the equality test fails). -/
def exUpdateHm : HashMap ℕ :=
  { get_hash := fun n => n
    compare := fun a b => if a = b then 0 else 1
    sizes := [2, 4]
    cur_size := 0
    num_elements := 2
    num_elements_grow := 1
    load_factor := 1/2
    copy_elements := false
    bucket_array := [[{ key := 4, hash := 4 }, { key := 6, hash := 6 }], []] }

/-- A concrete table about to resize: two buckets, one node in each. -/
def exResizeHm : HashMap ℕ :=
  { get_hash := fun n => n
    compare := fun a b => if a = b then 0 else 1
    sizes := [2, 4]
    cur_size := 0
    num_elements := 2
    num_elements_grow := 1
    load_factor := 1/2
    copy_elements := false
    bucket_array := [[{ key := 3, hash := 3 }], [{ key := 5, hash := 5 }]] }

/-- A concrete table at the `exCfg` growth threshold: three elements in
a four-bucket array, with the stored threshold written exactly as the
construction computes it. -/
def exC1Hm : HashMap ℕ :=
  { get_hash := fun n => n
    compare := fun a b => if a = b then 0 else 1
    sizes := [4, 8]
    cur_size := 0
    num_elements := 3
    num_elements_grow := 3
    load_factor := 3/4
    copy_elements := false
    bucket_array := [[{ key := 0, hash := 0 }], [{ key := 1, hash := 1 }],
      [{ key := 2, hash := 2 }], []] }

/-! ### Chain-level lemmas -/

theorem find_in_bucket_eq_none_iff (compare : K → K → ℤ) (key : K)
    (c : List (Node K)) :
    hashmap_find_in_bucket compare key c = none ↔
      ∀ n ∈ c, compare n.key key ≠ 0 := by
  induction c with
  | nil => simp [hashmap_find_in_bucket]
  | cons n rest ih =>
    by_cases hcmp : compare n.key key = 0
    · simp [hashmap_find_in_bucket, hcmp]
    · simp [hashmap_find_in_bucket, hcmp, ih]

theorem find_in_bucket_eq_some (compare : K → K → ℤ) (key : K)
    (c : List (Node K)) (n : Node K)
    (h : hashmap_find_in_bucket compare key c = some n) :
    n ∈ c ∧ compare n.key key = 0 := by
  induction c with
  | nil => simp [hashmap_find_in_bucket] at h
  | cons m rest ih =>
    by_cases hcmp : compare m.key key = 0
    · simp only [hashmap_find_in_bucket, if_pos hcmp, Option.some.injEq] at h
      subst h
      exact ⟨List.mem_cons_self m rest, hcmp⟩
    · simp only [hashmap_find_in_bucket, if_neg hcmp] at h
      obtain ⟨hmem, heq⟩ := ih h
      exact ⟨List.mem_cons_of_mem m hmem, heq⟩

theorem find_in_bucket_of_mem_key (compare : K → K → ℤ) (key : K)
    (c : List (Node K)) (hrefl : compare key key = 0)
    (hmem : ∃ n ∈ c, n.key = key) :
    ∃ n, hashmap_find_in_bucket compare key c = some n ∧
      compare n.key key = 0 := by
  cases hfind : hashmap_find_in_bucket compare key c with
  | none =>
    rw [find_in_bucket_eq_none_iff] at hfind
    obtain ⟨n, hn, hk⟩ := hmem
    exact absurd (by rw [hk]; exact hrefl) (hfind n hn)
  | some n =>
    exact ⟨n, rfl, (find_in_bucket_eq_some compare key c n hfind).2⟩

theorem add_key_to_bucket_append (compare : K → K → ℤ) (key : K) (hash : ℕ)
    (ok : Bool) (c : List (Node K))
    (h : ∀ n ∈ c.dropLast, compare n.key key ≠ 0) :
    hashmap_add_key_to_bucket compare key hash ok c =
      if ok then some (c ++ [{ key := key, hash := hash }], true)
      else none := by
  induction c with
  | nil =>
    cases ok <;>
      simp [hashmap_add_key_to_bucket, hashmap_bucket_node_create]
  | cons n rest ih =>
    cases rest with
    | nil =>
      cases ok <;>
        simp [hashmap_add_key_to_bucket, hashmap_bucket_node_create]
    | cons m rest2 =>
      have hn : compare n.key key ≠ 0 := h n (by simp)
      have htail : ∀ p ∈ (m :: rest2).dropLast, compare p.key key ≠ 0 := by
        intro p hp
        exact h p (by simp [hp])
      rw [hashmap_add_key_to_bucket, if_neg hn, ih htail]
      cases ok <;> simp

theorem add_key_to_bucket_update (compare : K → K → ℤ) (key : K) (hash : ℕ)
    (ok : Bool) (c1 c2 : List (Node K)) (n : Node K) (hne : c2 ≠ [])
    (hmatch : compare n.key key = 0)
    (hbefore : ∀ m ∈ c1, compare m.key key ≠ 0) :
    hashmap_add_key_to_bucket compare key hash ok (c1 ++ n :: c2) =
      some (c1 ++ { key := key, hash := n.hash } :: c2, false) := by
  induction c1 with
  | nil =>
    cases c2 with
    | nil => exact absurd rfl hne
    | cons m rest => simp [hashmap_add_key_to_bucket, hmatch]
  | cons p c1t ih =>
    have hp : compare p.key key ≠ 0 := hbefore p (by simp)
    have hih := ih (fun m hm => hbefore m (by simp [hm]))
    cases hq : c1t ++ n :: c2 with
    | nil => exact absurd hq (by simp)
    | cons q rest =>
      rw [List.cons_append, hq, hashmap_add_key_to_bucket, if_neg hp, ← hq,
        hih]
      simp

theorem add_key_to_bucket_mem (compare : K → K → ℤ) (key : K) (hash : ℕ)
    (ok : Bool) (c c2 : List (Node K)) (ap : Bool)
    (h : hashmap_add_key_to_bucket compare key hash ok c = some (c2, ap)) :
    ∃ n ∈ c2, n.key = key := by
  induction c generalizing c2 ap with
  | nil =>
    cases ok with
    | false => simp_all [hashmap_add_key_to_bucket, hashmap_bucket_node_create]
    | true =>
      simp_all only [hashmap_add_key_to_bucket, hashmap_bucket_node_create,
        if_pos, Option.some.injEq, Prod.mk.injEq]
      obtain ⟨h1, h2⟩ := h
      subst h1
      exact ⟨{ key := key, hash := hash }, by simp, rfl⟩
  | cons n rest ih =>
    cases rest with
    | nil =>
      cases ok with
      | false =>
        simp_all [hashmap_add_key_to_bucket, hashmap_bucket_node_create]
      | true =>
        simp_all only [hashmap_add_key_to_bucket, hashmap_bucket_node_create,
          if_pos, Option.some.injEq, Prod.mk.injEq]
        obtain ⟨h1, h2⟩ := h
        subst h1
        exact ⟨{ key := key, hash := hash }, by simp, rfl⟩
    | cons m rest2 =>
      by_cases hcmp : compare n.key key = 0
      · rw [hashmap_add_key_to_bucket, if_pos hcmp] at h
        simp only [Option.some.injEq, Prod.mk.injEq] at h
        obtain ⟨h1, h2⟩ := h
        subst h1
        exact ⟨{ key := key, hash := n.hash }, by simp, rfl⟩
      · rw [hashmap_add_key_to_bucket, if_neg hcmp] at h
        cases hrec : hashmap_add_key_to_bucket compare key hash ok (m :: rest2) with
        | none => rw [hrec] at h; simp at h
        | some pr =>
          rw [hrec] at h
          simp only [Option.map_some', Option.some.injEq, Prod.mk.injEq] at h
          obtain ⟨h1, h2⟩ := h
          subst h1
          obtain ⟨x, hx, hk⟩ := ih pr.1 pr.2 (by rw [hrec])
          exact ⟨x, List.mem_cons_of_mem n hx, hk⟩

/-! ### Rehash lemmas -/

theorem nodesOf_cons (c : List (Node K)) (arr : List (List (Node K))) :
    nodesOf (c :: arr) = (c : Multiset (Node K)) + nodesOf arr := by
  simp [nodesOf]

theorem nodesOf_set_append (arr : List (List (Node K))) (i : ℕ)
    (hi : i < arr.length) (x : Node K) :
    nodesOf (arr.set i ((arr.getD i []) ++ [x])) = nodesOf arr + {x} := by
  induction arr generalizing i with
  | nil => simp at hi
  | cons c t ih =>
    cases i with
    | zero =>
      rw [List.getD_cons_zero, List.set_cons_zero]
      simp only [nodesOf, List.flatten_cons, ← Multiset.coe_singleton,
        Multiset.coe_add, Multiset.coe_eq_coe, List.append_assoc]
      exact List.Perm.append_left c List.perm_append_comm
    | succ j =>
      have hj : j < t.length := by simpa using hi
      rw [List.getD_cons_succ, List.set_cons_succ, nodesOf_cons, ih j hj,
        nodesOf_cons, add_assoc]

theorem nodesOf_replicate_nil (n : ℕ) :
    nodesOf (List.replicate n ([] : List (Node K))) = 0 := by
  induction n with
  | zero => rfl
  | succ m ih => simp [List.replicate_succ, nodesOf_cons, ih]

theorem rehash_node_length (s : ℕ) (arr : List (List (Node K)))
    (x : Node K) : (hashmap_rehash_node s arr x).length = arr.length := by
  simp [hashmap_rehash_node]

theorem nodesOf_rehash_node (s : ℕ) (arr : List (List (Node K)))
    (x : Node K) (hlen : arr.length = s) (hs : 0 < s) :
    nodesOf (hashmap_rehash_node s arr x) = nodesOf arr + {x} := by
  have hi : x.hash % s < arr.length := by
    rw [hlen]; exact Nat.mod_lt _ hs
  simpa [hashmap_rehash_node, hashmap_add_node_to_bucket] using
    nodesOf_set_append arr (x.hash % s) hi x

theorem foldl_rehash_node_length (s : ℕ) (chain : List (Node K)) :
    ∀ arr : List (List (Node K)),
      (chain.foldl (hashmap_rehash_node s) arr).length = arr.length := by
  induction chain with
  | nil => intro arr; rfl
  | cons x t ih =>
    intro arr
    rw [List.foldl_cons, ih, rehash_node_length]

theorem nodesOf_foldl_chain (s : ℕ) (chain : List (Node K)) :
    ∀ arr, arr.length = s → 0 < s →
      nodesOf (chain.foldl (hashmap_rehash_node s) arr) =
        nodesOf arr + (chain : Multiset (Node K)) := by
  induction chain with
  | nil => intro arr _ _; simp
  | cons x t ih =>
    intro arr hlen hs
    rw [List.foldl_cons,
      ih _ (by rw [rehash_node_length, hlen]) hs,
      nodesOf_rehash_node s arr x hlen hs, add_assoc,
      Multiset.singleton_add, Multiset.cons_coe]

theorem rehash_length (s : ℕ) (old : List (List (Node K))) (sz : ℕ) :
    ∀ arr, (hashmap_rehash s arr old sz).length = arr.length := by
  simp only [hashmap_rehash]
  generalize old.take sz = l
  induction l with
  | nil => intro arr; rfl
  | cons c t ih =>
    intro arr
    rw [List.foldl_cons, ih, foldl_rehash_node_length]

theorem nodesOf_rehash (s : ℕ) (old : List (List (Node K))) (sz : ℕ) :
    ∀ arr, arr.length = s → 0 < s →
      nodesOf (hashmap_rehash s arr old sz) =
        nodesOf arr + nodesOf (old.take sz) := by
  simp only [hashmap_rehash]
  generalize old.take sz = l
  induction l with
  | nil => intro arr _ _; simp [nodesOf]
  | cons c t ih =>
    intro arr hlen hs
    rw [List.foldl_cons,
      ih _ (by rw [foldl_rehash_node_length, hlen]) hs,
      nodesOf_foldl_chain s c arr hlen hs, nodesOf_cons, add_assoc]

theorem placedOK_replicate (s k : ℕ) :
    PlacedOK s (List.replicate k ([] : List (Node K))) := by
  intro i hi n hn
  simp at hn

theorem placedOK_rehash_node (s : ℕ) (arr : List (List (Node K)))
    (x : Node K) (h : PlacedOK s arr) :
    PlacedOK s (hashmap_rehash_node s arr x) := by
  intro i hi n hn
  have hilen : i < arr.length := by
    simpa [rehash_node_length] using hi
  simp only [hashmap_rehash_node, hashmap_add_node_to_bucket] at hn
  rw [List.getElem_set] at hn
  by_cases hij : x.hash % s = i
  · rw [if_pos hij] at hn
    have hxi : x.hash % s < arr.length := hij ▸ hilen
    rcases List.mem_append.mp hn with hn2 | hn2
    · rw [List.getD_eq_getElem arr [] hxi] at hn2
      exact (h (x.hash % s) hxi n hn2).trans hij
    · simp at hn2
      subst hn2
      exact hij
  · rw [if_neg hij] at hn
    exact h i hilen n hn

theorem placedOK_foldl_chain (s : ℕ) (chain : List (Node K)) :
    ∀ arr, PlacedOK s arr →
      PlacedOK s (chain.foldl (hashmap_rehash_node s) arr) := by
  induction chain with
  | nil => intro arr h; exact h
  | cons x t ih =>
    intro arr h
    rw [List.foldl_cons]
    exact ih _ (placedOK_rehash_node s arr x h)

theorem placedOK_rehash (s : ℕ) (old : List (List (Node K))) (sz : ℕ) :
    ∀ arr, PlacedOK s arr →
      PlacedOK s (hashmap_rehash s arr old sz) := by
  simp only [hashmap_rehash]
  generalize old.take sz = l
  induction l with
  | nil => intro arr h; exact h
  | cons c t ih =>
    intro arr h
    rw [List.foldl_cons]
    exact ih _ (placedOK_foldl_chain s c arr h)

/-! ### State-shape lemmas for the table operations -/

theorem hashmap_add_key_state (hm : HashMap K) (key : K) (keyOk nodeOk : Bool) :
    ∃ arr cnt,
      (hashmap_add_key hm key keyOk nodeOk).2.1 =
        { hm with bucket_array := arr, num_elements := cnt } ∧
      arr.length = hm.bucket_array.length := by
  unfold hashmap_add_key
  split
  · exact ⟨hm.bucket_array, hm.num_elements, rfl, rfl⟩
  · dsimp only
    split
    · exact ⟨hm.bucket_array, hm.num_elements, rfl, rfl⟩
    · exact ⟨_, _, rfl, by simp⟩

theorem hashmap_add_key_frame (hm : HashMap K) (key : K) (keyOk nodeOk : Bool) :
    (hashmap_add_key hm key keyOk nodeOk).2.1.cur_size = hm.cur_size ∧
    (hashmap_add_key hm key keyOk nodeOk).2.1.sizes = hm.sizes ∧
    (hashmap_add_key hm key keyOk nodeOk).2.1.num_elements_grow =
      hm.num_elements_grow ∧
    (hashmap_add_key hm key keyOk nodeOk).2.1.bucket_array.length =
      hm.bucket_array.length := by
  obtain ⟨arr, cnt, heq, hlen⟩ := hashmap_add_key_state hm key keyOk nodeOk
  rw [heq]
  exact ⟨rfl, rfl, rfl, hlen⟩

theorem hashmap_resize_last (hm : HashMap K) (ok : Bool)
    (h : hm.cur_size = hm.sizes.length - 1) :
    hashmap_resize hm ok = (0, hm) := by
  simp [hashmap_resize, h]

theorem hashmap_resize_fail (hm : HashMap K)
    (h : hm.cur_size ≠ hm.sizes.length - 1) :
    hashmap_resize hm false = (-1, hm) := by
  simp [hashmap_resize, h, hashmap_allocate_bucket_array]

theorem hashmap_resize_success (hm : HashMap K)
    (h : hm.cur_size ≠ hm.sizes.length - 1) :
    hashmap_resize hm true =
      (0, { hm with
              cur_size := hm.cur_size + 1
              bucket_array :=
                hashmap_rehash (hm.sizes.getD (hm.cur_size + 1) 0)
                  (List.replicate (hm.sizes.getD (hm.cur_size + 1) 0) [])
                  hm.bucket_array (hm.sizes.getD hm.cur_size 0)
              num_elements_grow :=
                (((hm.sizes.getD (hm.cur_size + 1) 0 : ℚ) *
                    hm.load_factor).floor).toNat }) := by
  simp [hashmap_resize, h, hashmap_allocate_bucket_array]

theorem resize_cur_size_mono (hm : HashMap K) (ok : Bool) :
    hm.cur_size ≤ (hashmap_resize hm ok).2.cur_size := by
  by_cases hlast : hm.cur_size = hm.sizes.length - 1
  · simp [hashmap_resize_last hm ok hlast]
  · cases ok with
    | false => simp [hashmap_resize_fail hm hlast]
    | true =>
      simp only [hashmap_resize_success hm hlast]
      exact Nat.le_succ _

theorem WF_resize (hm : HashMap K) (ok : Bool) (h : WF hm) :
    WF (hashmap_resize hm ok).2 := by
  obtain ⟨hcur, hlen, hpos⟩ := h
  by_cases hlast : hm.cur_size = hm.sizes.length - 1
  · rw [hashmap_resize_last hm ok hlast]
    exact ⟨hcur, hlen, hpos⟩
  · cases ok with
    | false =>
      rw [hashmap_resize_fail hm hlast]
      exact ⟨hcur, hlen, hpos⟩
    | true =>
      rw [hashmap_resize_success hm hlast]
      refine ⟨?_, ?_, hpos⟩
      · show hm.cur_size + 1 < hm.sizes.length
        omega
      · show (hashmap_rehash (hm.sizes.getD (hm.cur_size + 1) 0)
            (List.replicate (hm.sizes.getD (hm.cur_size + 1) 0) [])
            hm.bucket_array (hm.sizes.getD hm.cur_size 0)).length =
          hm.sizes.getD (hm.cur_size + 1) 0
        rw [rehash_length, List.length_replicate]

theorem WF_add (hm : HashMap K) (key : K) (a b : Bool) (h : WF hm) :
    WF (hashmap_add_key hm key a b).2.1 := by
  obtain ⟨arr, cnt, heq, hlen⟩ := hashmap_add_key_state hm key a b
  obtain ⟨hcur, hl, hpos⟩ := h
  rw [heq]
  exact ⟨hcur, hlen.trans hl, hpos⟩

theorem WF_set (hm : HashMap K) (key : K) (plan : AllocPlan) (h : WF hm) :
    WF (hashmap_set hm key plan).2.1 := by
  by_cases hg : hm.num_elements = hm.num_elements_grow
  · simp only [hashmap_set, if_pos hg]
    cases hr : hashmap_resize hm plan.resize_array_ok with
    | mk r hm2 =>
      have h2 : WF hm2 := by
        have := WF_resize hm plan.resize_array_ok h
        rw [hr] at this
        exact this
      by_cases hrn : r < 0
      · simpa [hrn] using h2
      · simpa [hrn] using
          WF_add hm2 key plan.key_copy_ok plan.node_ok h2
  · simp only [hashmap_set, if_neg hg]
    exact WF_add hm key plan.key_copy_ok plan.node_ok h

theorem set_cur_size_mono (hm : HashMap K) (key : K) (plan : AllocPlan) :
    hm.cur_size ≤ (hashmap_set hm key plan).2.1.cur_size := by
  by_cases hg : hm.num_elements = hm.num_elements_grow
  · simp only [hashmap_set, if_pos hg]
    cases hr : hashmap_resize hm plan.resize_array_ok with
    | mk r hm2 =>
      have h2 : hm.cur_size ≤ hm2.cur_size := by
        have := resize_cur_size_mono hm plan.resize_array_ok
        rw [hr] at this
        exact this
      by_cases hrn : r < 0
      · simpa [hrn] using h2
      · simp only [hrn, if_neg, ite_false]
        obtain ⟨arr, cnt, heq, _⟩ :=
          hashmap_add_key_state hm2 key plan.key_copy_ok plan.node_ok
        rw [heq]
        exact h2
  · simp only [hashmap_set, if_neg hg]
    obtain ⟨arr, cnt, heq, _⟩ :=
      hashmap_add_key_state hm key plan.key_copy_ok plan.node_ok
    rw [heq]

theorem applySets_append (hm : HashMap K) (ops1 ops2 : List (K × AllocPlan)) :
    applySets hm (ops1 ++ ops2) = applySets (applySets hm ops1) ops2 := by
  simp [applySets]

theorem applySets_cur_size_mono (ops : List (K × AllocPlan)) :
    ∀ hm : HashMap K, hm.cur_size ≤ (applySets hm ops).cur_size := by
  induction ops with
  | nil => intro hm; exact le_refl _
  | cons op t ih =>
    intro hm
    exact (set_cur_size_mono hm op.1 op.2).trans (ih _)

theorem WF_applySets (ops : List (K × AllocPlan)) :
    ∀ hm : HashMap K, WF hm → WF (applySets hm ops) := by
  induction ops with
  | nil => intro hm h; exact h
  | cons op t ih =>
    intro hm h
    exact ih _ (WF_set hm op.1 op.2 h)

theorem WF_new (cfg : HashConfig K) (hm : HashMap K) (ok1 ok2 ok3 : Bool)
    (hres : (hashmap_new cfg ok1 ok2 ok3).1 = some hm)
    (hne : cfg.sizes ≠ []) (hpos : ∀ s ∈ cfg.sizes, 0 < s) : WF hm := by
  cases ok1 with
  | false => simp [hashmap_new] at hres
  | true =>
    cases ok2 with
    | false => simp [hashmap_new] at hres
    | true =>
      cases ok3 with
      | false => simp [hashmap_new, hashmap_allocate_bucket_array] at hres
      | true =>
        simp only [hashmap_new, hashmap_allocate_bucket_array,
          Bool.true_eq_false, if_false, if_true, Option.some.injEq] at hres
        subst hres
        exact ⟨List.length_pos.mpr hne, by simp, hpos⟩

/-! ### Small auxiliary lemmas -/

theorem getD_replicate_nil (n i : ℕ) :
    (List.replicate n ([] : List (Node K))).getD i [] = [] := by
  rcases lt_or_ge i n with h | h
  · rw [List.getD_eq_getElem _ _ (by simpa using h), List.getElem_replicate]
  · exact List.getD_eq_default _ _ (by simpa using h)

theorem hashmap_new_all_ok (cfg : HashConfig K) :
    (hashmap_new cfg true true true).1 = some (newTable cfg) := rfl

theorem get_key_to_use_true (hm : HashMap K) (key : K) :
    hashmap_get_key_to_use hm key true = some key := by
  unfold hashmap_get_key_to_use
  cases hm.copy_elements <;> simp

theorem get_key_to_use_none_or (hm : HashMap K) (key : K) (ok : Bool) :
    hashmap_get_key_to_use hm key ok = none ∨
    hashmap_get_key_to_use hm key ok = some key := by
  unfold hashmap_get_key_to_use
  cases hm.copy_elements <;> cases ok <;> simp

theorem hashmap_resize_true_fst (hm : HashMap K) :
    (hashmap_resize hm true).1 = 0 := by
  by_cases hlast : hm.cur_size = hm.sizes.length - 1
  · rw [hashmap_resize_last hm true hlast]
  · rw [hashmap_resize_success hm hlast]

theorem hashmap_resize_fields (hm : HashMap K) (ok : Bool) :
    (hashmap_resize hm ok).2.compare = hm.compare ∧
    (hashmap_resize hm ok).2.get_hash = hm.get_hash ∧
    (hashmap_resize hm ok).2.sizes = hm.sizes ∧
    (hashmap_resize hm ok).2.num_elements = hm.num_elements ∧
    (hashmap_resize hm ok).2.copy_elements = hm.copy_elements ∧
    (hashmap_resize hm ok).2.load_factor = hm.load_factor := by
  by_cases hlast : hm.cur_size = hm.sizes.length - 1
  · rw [hashmap_resize_last hm ok hlast]
    exact ⟨rfl, rfl, rfl, rfl, rfl, rfl⟩
  · cases ok with
    | false =>
      rw [hashmap_resize_fail hm hlast]
      exact ⟨rfl, rfl, rfl, rfl, rfl, rfl⟩
    | true =>
      rw [hashmap_resize_success hm hlast]
      exact ⟨rfl, rfl, rfl, rfl, rfl, rfl⟩

/-- A `hashmap_set` call that neither resizes nor finds a non-tail match
appends a fresh node holding the key and its hash at the chain's tail. -/
theorem set_no_resize_append (hm : HashMap K) (key : K)
    (hg : hm.num_elements ≠ hm.num_elements_grow)
    (hnomatch : ∀ m ∈ (hm.bucket_array.getD
        (hm.get_hash key % hm.sizes.getD hm.cur_size 0) []).dropLast,
      hm.compare m.key key ≠ 0) :
    hashmap_set hm key okPlan =
      (0, { hm with
              bucket_array := hm.bucket_array.set
                (hm.get_hash key % hm.sizes.getD hm.cur_size 0)
                ((hm.bucket_array.getD
                    (hm.get_hash key % hm.sizes.getD hm.cur_size 0) []) ++
                  [{ key := key, hash := hm.get_hash key }])
              num_elements := hm.num_elements + 1 }, false) := by
  simp only [hashmap_set, okPlan, if_neg hg]
  unfold hashmap_add_key
  rw [get_key_to_use_true]
  dsimp only
  rw [add_key_to_bucket_append hm.compare key (hm.get_hash key) true _
    hnomatch]
  simp

/-- When node allocation fails and no non-tail node matches,
`hashmap_add_key` reports failure, leaves the table unchanged, and
releases the key copy exactly when one was made. -/
theorem add_key_node_fail (hm : HashMap K) (key : K)
    (hnomatch : ∀ m ∈ (hm.bucket_array.getD
        (hm.get_hash key % hm.sizes.getD hm.cur_size 0) []).dropLast,
      hm.compare m.key key ≠ 0) :
    hashmap_add_key hm key true false = (-1, hm, hm.copy_elements) := by
  unfold hashmap_add_key
  rw [get_key_to_use_true]
  dsimp only
  rw [add_key_to_bucket_append hm.compare key (hm.get_hash key) false _
    hnomatch]
  simp

/-- After a successful `hashmap_add_key`, looking the key up succeeds
and the returned key handle compares equal to the argument. -/
theorem add_key_success_get (hm : HashMap K) (key : K) (keyOk nodeOk : Bool)
    (hwf : WF hm) (hrefl : hm.compare key key = 0)
    (hsucc : (hashmap_add_key hm key keyOk nodeOk).1 = 0) :
    ∃ k2, hashmap_getv (hashmap_add_key hm key keyOk nodeOk).2.1 key =
        some k2 ∧ hm.compare k2 key = 0 := by
  obtain ⟨hcur, hlen, hpos⟩ := hwf
  have hszpos : 0 < hm.sizes.getD hm.cur_size 0 := by
    apply hpos
    rw [List.getD_eq_getElem _ _ hcur]
    exact List.getElem_mem _
  rcases get_key_to_use_none_or hm key keyOk with hkey | hkey
  · unfold hashmap_add_key at hsucc
    rw [hkey] at hsucc
    simp at hsucc
  · unfold hashmap_add_key at hsucc ⊢
    rw [hkey] at hsucc ⊢
    dsimp only at hsucc ⊢
    cases hadd : hashmap_add_key_to_bucket hm.compare key (hm.get_hash key)
        nodeOk (hm.bucket_array.getD
          (hm.get_hash key % hm.sizes.getD hm.cur_size 0) []) with
    | none =>
      rw [hadd] at hsucc
      simp at hsucc
    | some pr =>
      rcases pr with ⟨c2, ap⟩
      dsimp only
      have hidx : hm.get_hash key % hm.sizes.getD hm.cur_size 0 <
          hm.bucket_array.length := by
        rw [hlen]
        exact Nat.mod_lt _ hszpos
      obtain ⟨n, hnmem, hnkey⟩ :=
        add_key_to_bucket_mem hm.compare key (hm.get_hash key) nodeOk _ c2
          ap hadd
      obtain ⟨m, hfind, hcmp⟩ := find_in_bucket_of_mem_key hm.compare key c2
        hrefl ⟨n, hnmem, hnkey⟩
      refine ⟨m.key, ?_, hcmp⟩
      simp only [hashmap_getv, hashmap_get]
      have hbucket : ((hm.bucket_array.set
          (hm.get_hash key % hm.sizes.getD hm.cur_size 0) c2).getD
          (hm.get_hash key % hm.sizes.getD hm.cur_size 0) []) = c2 := by
        rw [List.getD_eq_getElem _ _ (by simpa using hidx),
          List.getElem_set]
        simp
      rw [hbucket, hfind]

/-! ### The claims -/

/-- C4: after any sequence of `set` calls applied to a freshly
constructed table, `size_index` never exceeds `len(sizes) - 1`,
`size_index` never decreases along the sequence, and the bucket array
length always equals `sizes[size_index]`. -/
theorem claim_C4_growth_invariants (cfg : HashConfig K) (hm0 : HashMap K)
    (ok1 ok2 ok3 : Bool)
    (hres : (hashmap_new cfg ok1 ok2 ok3).1 = some hm0)
    (hne : cfg.sizes ≠ []) (hpos : ∀ s ∈ cfg.sizes, 0 < s)
    (ops : List (K × AllocPlan)) :
    (applySets hm0 ops).cur_size ≤ (applySets hm0 ops).sizes.length - 1 ∧
    (applySets hm0 ops).bucket_array.length =
      (applySets hm0 ops).sizes.getD (applySets hm0 ops).cur_size 0 ∧
    ∀ ops1 ops2, ops = ops1 ++ ops2 →
      (applySets hm0 ops1).cur_size ≤ (applySets hm0 ops).cur_size := by
  have hwf := WF_applySets ops hm0 (WF_new cfg hm0 ok1 ok2 ok3 hres hne hpos)
  obtain ⟨hcur, hlen, _⟩ := hwf
  refine ⟨by omega, hlen, ?_⟩
  intro ops1 ops2 hsplit
  subst hsplit
  rw [applySets_append]
  exact applySets_cur_size_mono ops2 _

theorem claim_C4_growth_invariants_witness :
    (applySets (newD exCfg) [(1, okPlan), (2, okPlan)]).cur_size ≤
      (applySets (newD exCfg) [(1, okPlan), (2, okPlan)]).sizes.length - 1 ∧
    (applySets (newD exCfg) [(1, okPlan), (2, okPlan)]).bucket_array.length =
      (applySets (newD exCfg) [(1, okPlan), (2, okPlan)]).sizes.getD
        (applySets (newD exCfg) [(1, okPlan), (2, okPlan)]).cur_size 0 ∧
    ∀ ops1 ops2, [(1, okPlan), (2, okPlan)] = ops1 ++ ops2 →
      (applySets (newD exCfg) ops1).cur_size ≤
        (applySets (newD exCfg) [(1, okPlan), (2, okPlan)]).cur_size :=
  claim_C4_growth_invariants exCfg (newD exCfg) true true true rfl
    (by decide) (by decide) [(1, okPlan), (2, okPlan)]

/-- C5: a successful growing resize advances `size_index` by exactly
one, keeps the multiset of (key, cached hash) chain nodes unchanged (no
node lost, none duplicated, no key or hash rewritten), and places every
node in the bucket `cached_hash % sizes[new size_index]` of the new
array. -/
theorem claim_C5_resize_relocates (hm : HashMap K)
    (hcur : hm.cur_size < hm.sizes.length - 1)
    (hlen : hm.bucket_array.length = hm.sizes.getD hm.cur_size 0)
    (hpos : 0 < hm.sizes.getD (hm.cur_size + 1) 0) :
    (hashmap_resize hm true).1 = 0 ∧
    (hashmap_resize hm true).2.cur_size = hm.cur_size + 1 ∧
    nodesOf (hashmap_resize hm true).2.bucket_array =
      nodesOf hm.bucket_array ∧
    PlacedOK (hm.sizes.getD (hm.cur_size + 1) 0)
      (hashmap_resize hm true).2.bucket_array := by
  have hlast : hm.cur_size ≠ hm.sizes.length - 1 := by omega
  rw [hashmap_resize_success hm hlast]
  refine ⟨rfl, rfl, ?_, ?_⟩
  · show nodesOf (hashmap_rehash (hm.sizes.getD (hm.cur_size + 1) 0)
        (List.replicate (hm.sizes.getD (hm.cur_size + 1) 0) [])
        hm.bucket_array (hm.sizes.getD hm.cur_size 0)) =
      nodesOf hm.bucket_array
    rw [nodesOf_rehash _ _ _ _ (List.length_replicate _ _) hpos,
      nodesOf_replicate_nil, zero_add, ← hlen, List.take_length]
  · show PlacedOK (hm.sizes.getD (hm.cur_size + 1) 0)
      (hashmap_rehash (hm.sizes.getD (hm.cur_size + 1) 0)
        (List.replicate (hm.sizes.getD (hm.cur_size + 1) 0) [])
        hm.bucket_array (hm.sizes.getD hm.cur_size 0))
    exact placedOK_rehash _ _ _ _ (placedOK_replicate _ _)

theorem claim_C5_resize_relocates_witness :
    (hashmap_resize exResizeHm true).1 = 0 ∧
    (hashmap_resize exResizeHm true).2.cur_size = exResizeHm.cur_size + 1 ∧
    nodesOf (hashmap_resize exResizeHm true).2.bucket_array =
      nodesOf exResizeHm.bucket_array ∧
    PlacedOK (exResizeHm.sizes.getD (exResizeHm.cur_size + 1) 0)
      (hashmap_resize exResizeHm true).2.bucket_array :=
  claim_C5_resize_relocates exResizeHm (by decide) (by decide) (by decide)

/-- C6: an allocation failure during construction makes `hashmap_new`
release exactly the allocations it made earlier in that call and report
failure (no partial table); on success the table starts with
`size_index = 0`, `element_count = 0`, a bucket array of length
`sizes[0]` and every bucket an empty chain. -/
theorem claim_C6_construction_unwinds (cfg : HashConfig K)
    (ok1 ok2 ok3 : Bool) :
    ((ok1 = false ∨ ok2 = false ∨ ok3 = false) →
      (hashmap_new cfg ok1 ok2 ok3).1 = none ∧
      ((hashmap_new cfg ok1 ok2 ok3).2.1 : Multiset ℕ) =
        ((hashmap_new cfg ok1 ok2 ok3).2.2 : Multiset ℕ)) ∧
    ∀ hm, (hashmap_new cfg ok1 ok2 ok3).1 = some hm →
      hm.cur_size = 0 ∧ hm.num_elements = 0 ∧
      hm.bucket_array.length = cfg.sizes.getD 0 0 ∧
      ∀ c ∈ hm.bucket_array, c = [] := by
  cases ok1 with
  | false =>
    refine ⟨fun _ => ⟨rfl, rfl⟩, fun hm h => ?_⟩
    simp [hashmap_new] at h
  | true =>
    cases ok2 with
    | false =>
      refine ⟨fun _ => ⟨rfl, rfl⟩, fun hm h => ?_⟩
      simp [hashmap_new] at h
    | true =>
      cases ok3 with
      | false =>
        refine ⟨fun _ => ⟨rfl, ?_⟩, fun hm h => ?_⟩
        · show (([1, 2] : List ℕ) : Multiset ℕ) =
            (([2, 1] : List ℕ) : Multiset ℕ)
          rw [Multiset.coe_eq_coe]
          decide
        · simp [hashmap_new, hashmap_allocate_bucket_array] at h
      | true =>
        refine ⟨fun hcontra => ?_, fun hm h => ?_⟩
        · rcases hcontra with h | h | h <;> simp at h
        · simp only [hashmap_new, hashmap_allocate_bucket_array,
            Bool.true_eq_false, if_false, if_true, Option.some.injEq] at h
          subst h
          refine ⟨rfl, rfl, by simp, ?_⟩
          intro c hc
          exact List.eq_of_mem_replicate hc

theorem claim_C6_construction_unwinds_witness :
    ((true = false ∨ true = false ∨ false = false) →
      (hashmap_new exCfg true true false).1 = none ∧
      ((hashmap_new exCfg true true false).2.1 : Multiset ℕ) =
        ((hashmap_new exCfg true true false).2.2 : Multiset ℕ)) ∧
    ∀ hm, (hashmap_new exCfg true true false).1 = some hm →
      hm.cur_size = 0 ∧ hm.num_elements = 0 ∧
      hm.bucket_array.length = exCfg.sizes.getD 0 0 ∧
      ∀ c ∈ hm.bucket_array, c = [] :=
  claim_C6_construction_unwinds exCfg true true false

/-- C8: `hashmap_get` leaves the table state untouched, makes no
allocator call, and returns either the stored key handle of a chain node
of the addressed bucket that compares equal to the argument, or the
not-found indicator when no node of that bucket compares equal. -/
theorem claim_C8_get_readonly (hm : HashMap K) (key : K) :
    (hashmap_get hm key).1 = hm ∧
    (hashmap_get hm key).2.1 = 0 ∧
    (((hashmap_get hm key).2.2 = none ∧
      ∀ n ∈ hm.bucket_array.getD
          (hm.get_hash key % hm.sizes.getD hm.cur_size 0) [],
        hm.compare n.key key ≠ 0) ∨
     ∃ n ∈ hm.bucket_array.getD
          (hm.get_hash key % hm.sizes.getD hm.cur_size 0) [],
       hm.compare n.key key = 0 ∧
       (hashmap_get hm key).2.2 = some n.key) := by
  refine ⟨rfl, rfl, ?_⟩
  cases hfind : hashmap_find_in_bucket hm.compare key
      (hm.bucket_array.getD (hm.get_hash key % hm.sizes.getD hm.cur_size 0)
        []) with
  | none =>
    left
    exact ⟨by simp only [hashmap_get]; rw [hfind],
      (find_in_bucket_eq_none_iff hm.compare key _).mp hfind⟩
  | some n =>
    right
    obtain ⟨hmem, hcmp⟩ := find_in_bucket_eq_some hm.compare key _ n hfind
    exact ⟨n, hmem, hcmp, by simp only [hashmap_get]; rw [hfind]⟩

theorem claim_C8_get_readonly_witness :
    (hashmap_get exUpdateHm 4).1 = exUpdateHm ∧
    (hashmap_get exUpdateHm 4).2.1 = 0 ∧
    (((hashmap_get exUpdateHm 4).2.2 = none ∧
      ∀ n ∈ exUpdateHm.bucket_array.getD
          (exUpdateHm.get_hash 4 % exUpdateHm.sizes.getD exUpdateHm.cur_size 0)
          [],
        exUpdateHm.compare n.key 4 ≠ 0) ∨
     ∃ n ∈ exUpdateHm.bucket_array.getD
          (exUpdateHm.get_hash 4 % exUpdateHm.sizes.getD exUpdateHm.cur_size 0)
          [],
       exUpdateHm.compare n.key 4 = 0 ∧
       (hashmap_get exUpdateHm 4).2.2 = some n.key) :=
  claim_C8_get_readonly exUpdateHm 4

/-- C10: when a `set` call finds its key among the non-tail nodes of the
target chain (first match at a non-tail position), the call succeeds as
an in-place update: `element_count` is unchanged, no chain node is
allocated (the outcome does not depend on the node-allocation result
`nodeOk`), the chain keeps its length and node order, and only the
matched node's stored key handle changes — its cached hash and every
other table field are untouched. -/
theorem claim_C10_inplace_update (hm : HashMap K) (key : K)
    (rOk nodeOk : Bool) (c1 c2 : List (Node K)) (n : Node K)
    (hchain : hm.bucket_array.getD
        (hm.get_hash key % hm.sizes.getD hm.cur_size 0) [] = c1 ++ n :: c2)
    (hne : c2 ≠ [])
    (hmatch : hm.compare n.key key = 0)
    (hbefore : ∀ m ∈ c1, hm.compare m.key key ≠ 0)
    (hnores : hm.num_elements ≠ hm.num_elements_grow) :
    hashmap_set hm key
        { resize_array_ok := rOk, key_copy_ok := true, node_ok := nodeOk } =
      (0, { hm with
              bucket_array := hm.bucket_array.set
                (hm.get_hash key % hm.sizes.getD hm.cur_size 0)
                (c1 ++ { key := key, hash := n.hash } :: c2) }, false) := by
  simp only [hashmap_set, if_neg hnores]
  unfold hashmap_add_key
  rw [get_key_to_use_true]
  dsimp only
  rw [hchain, add_key_to_bucket_update hm.compare key (hm.get_hash key)
    nodeOk c1 c2 n hne hmatch hbefore]
  simp

theorem claim_C10_inplace_update_witness :
    hashmap_set exUpdateHm 4
        { resize_array_ok := true, key_copy_ok := true, node_ok := false } =
      (0, { exUpdateHm with
              bucket_array := exUpdateHm.bucket_array.set
                (exUpdateHm.get_hash 4 %
                  exUpdateHm.sizes.getD exUpdateHm.cur_size 0)
                [{ key := 4, hash := 4 }, { key := 6, hash := 6 }] },
       false) :=
  claim_C10_inplace_update exUpdateHm 4 true false []
    [{ key := 6, hash := 6 }] { key := 4, hash := 4 } (by decide)
    (by decide) (by decide) (by decide) (by decide)

/-- C7: when node allocation fails during `set` (and the call reaches
node creation because no non-tail node of the target chain matches), the
call releases the key copy exactly when one was made (`copy_elements`),
reports failure, and leaves the table exactly in the state `hm1` it had
after the growth step — a resize committed earlier in the same call is
retained, nothing else changes. -/
theorem claim_C7_node_alloc_failure (hm : HashMap K) (key : K) :
    ∀ hm1, hm1 = (if hm.num_elements = hm.num_elements_grow
        then (hashmap_resize hm true).2 else hm) →
      (∀ m ∈ (hm1.bucket_array.getD
          (hm1.get_hash key % hm1.sizes.getD hm1.cur_size 0) []).dropLast,
        hm1.compare m.key key ≠ 0) →
      hashmap_set hm key
          { resize_array_ok := true, key_copy_ok := true, node_ok := false } =
        (-1, hm1, hm1.copy_elements) := by
  intro hm1 hdef hnomatch
  by_cases hg : hm.num_elements = hm.num_elements_grow
  · rw [if_pos hg] at hdef
    simp only [hashmap_set, if_pos hg]
    cases hres : hashmap_resize hm true with
    | mk r hm2 =>
      have hr0 : r = 0 := by
        have := hashmap_resize_true_fst hm
        rw [hres] at this
        exact this
      subst hr0
      have hm12 : hm1 = hm2 := by rw [hdef, hres]
      subst hm12
      dsimp only
      rw [if_neg (by decide : ¬((0 : ℤ) < 0))]
      exact add_key_node_fail hm1 key hnomatch
  · rw [if_neg hg] at hdef
    subst hdef
    simp only [hashmap_set, if_neg hg]
    exact add_key_node_fail hm1 key hnomatch

theorem claim_C7_node_alloc_failure_witness :
    hashmap_set exUpdateHm 8
        { resize_array_ok := true, key_copy_ok := true, node_ok := false } =
      (-1, exUpdateHm, exUpdateHm.copy_elements) :=
  claim_C7_node_alloc_failure exUpdateHm 8 exUpdateHm
    (by rw [if_neg (by decide)]) (by decide)

/-- C3: a successful `set` followed immediately by `get` with the same
key returns a stored key handle that compares equal to the argument
under the caller's comparison — never the not-found indicator.  (This
holds even in the chain-tail collision case the claim sets aside: the
lookup then finds the older equal-keyed node.) -/
theorem claim_C3_set_get_roundtrip (hm : HashMap K) (key : K)
    (plan : AllocPlan) (hwf : WF hm) (hrefl : hm.compare key key = 0)
    (hsucc : (hashmap_set hm key plan).1 = 0) :
    ∃ k2, hashmap_getv (hashmap_set hm key plan).2.1 key = some k2 ∧
      hm.compare k2 key = 0 := by
  by_cases hg : hm.num_elements = hm.num_elements_grow
  · simp only [hashmap_set, if_pos hg] at hsucc ⊢
    cases hres : hashmap_resize hm plan.resize_array_ok with
    | mk r hm2 =>
      rw [hres] at hsucc
      dsimp only at hsucc ⊢
      by_cases hr : r < 0
      · rw [if_pos hr] at hsucc
        simp at hsucc
      · rw [if_neg hr] at hsucc ⊢
        have hwf2 : WF hm2 := by
          have := WF_resize hm plan.resize_array_ok hwf
          rw [hres] at this
          exact this
        have hcmp2 : hm2.compare = hm.compare := by
          have := (hashmap_resize_fields hm plan.resize_array_ok).1
          rw [hres] at this
          exact this
        obtain ⟨k2, hget, hc⟩ := add_key_success_get hm2 key
          plan.key_copy_ok plan.node_ok hwf2 (by rw [hcmp2]; exact hrefl)
          hsucc
        refine ⟨k2, hget, ?_⟩
        rw [← hcmp2]
        exact hc
  · simp only [hashmap_set, if_neg hg] at hsucc ⊢
    exact add_key_success_get hm key plan.key_copy_ok plan.node_ok hwf
      hrefl hsucc

theorem claim_C3_set_get_roundtrip_witness :
    ∃ k2, hashmap_getv (hashmap_set exUpdateHm 4 okPlan).2.1 4 = some k2 ∧
      exUpdateHm.compare k2 4 = 0 :=
  claim_C3_set_get_roundtrip exUpdateHm 4 okPlan
    ⟨by decide, by decide, by decide⟩ (by decide) (by decide)

/-- C2: inserting a key `A` into a freshly constructed empty table and
then inserting a key `A2` with the same hash (in particular an
`equals_fn`-equal key) produces two nodes in the target bucket,
`element_count` rises by 2 across the two calls (0, then 1, then 2), and
`get(A)` returns the key stored by the first insert, not `A2`. -/
theorem claim_C2_tail_collision (cfg : HashConfig K) (A A2 : K)
    (hpos : 0 < cfg.sizes.getD 0 0)
    (hgrow2 : 2 ≤ (((cfg.sizes.getD 0 0 : ℚ) * cfg.load_factor).floor).toNat)
    (hhash : cfg.get_hash A2 = cfg.get_hash A)
    (hrefl : cfg.compare A A = 0) :
    ∀ hm0 hm1 hm2,
      (hashmap_new cfg true true true).1 = some hm0 →
      hm1 = (hashmap_set hm0 A okPlan).2.1 →
      hm2 = (hashmap_set hm1 A2 okPlan).2.1 →
      hm0.num_elements = 0 ∧ hm1.num_elements = 1 ∧ hm2.num_elements = 2 ∧
      hm2.bucket_array.getD (cfg.get_hash A % cfg.sizes.getD 0 0) [] =
        [{ key := A, hash := cfg.get_hash A },
         { key := A2, hash := cfg.get_hash A2 }] ∧
      hashmap_getv hm2 A = some A := by
  intro hm0 hm1 hm2 hres h1 h2
  have hm0eq : hm0 = newTable cfg := by
    rw [hashmap_new_all_ok] at hres
    injection hres with h
    exact h.symm
  subst hm0eq
  have idxlt : cfg.get_hash A % cfg.sizes.getD 0 0 < cfg.sizes.getD 0 0 :=
    Nat.mod_lt _ hpos
  -- first insert: the bucket is empty, so a fresh node is appended
  have hchain0 : (newTable cfg).bucket_array.getD
      ((newTable cfg).get_hash A % (newTable cfg).sizes.getD
        (newTable cfg).cur_size 0) [] = [] := getD_replicate_nil _ _
  have hstep1 := set_no_resize_append (newTable cfg) A
    (by
      show (0 : ℕ) ≠
        (((cfg.sizes.getD 0 0 : ℚ) * cfg.load_factor).floor).toNat
      omega)
    (by rw [hchain0]; simp)
  rw [hchain0] at hstep1
  have h1n : hm1.num_elements = 1 := by rw [h1, hstep1]; rfl
  have hm1gh : hm1.get_hash = cfg.get_hash := by rw [h1, hstep1]; rfl
  have hm1cmp : hm1.compare = cfg.compare := by rw [h1, hstep1]; rfl
  have hm1sz : hm1.sizes = cfg.sizes := by rw [h1, hstep1]; rfl
  have hm1cur : hm1.cur_size = 0 := by rw [h1, hstep1]; rfl
  have hm1grow : hm1.num_elements_grow =
      (((cfg.sizes.getD 0 0 : ℚ) * cfg.load_factor).floor).toNat := by
    rw [h1, hstep1]; rfl
  have hB1 : hm1.bucket_array =
      (List.replicate (cfg.sizes.getD 0 0) []).set
        (cfg.get_hash A % cfg.sizes.getD 0 0)
        ([] ++ [{ key := A, hash := cfg.get_hash A }]) := by
    rw [h1, hstep1]; rfl
  -- second insert: the bucket holds one node, the tail, which the walk
  -- never compares; a second node is appended
  have hlen1 : cfg.get_hash A % cfg.sizes.getD 0 0 <
      ((List.replicate (cfg.sizes.getD 0 0) ([] : List (Node K))).set
        (cfg.get_hash A % cfg.sizes.getD 0 0)
        ([] ++ [{ key := A, hash := cfg.get_hash A }])).length := by
    simpa using idxlt
  have hchain1 : hm1.bucket_array.getD
      (hm1.get_hash A2 % hm1.sizes.getD hm1.cur_size 0) [] =
      [{ key := A, hash := cfg.get_hash A }] := by
    rw [hB1, hm1gh, hm1sz, hm1cur, hhash,
      List.getD_eq_getElem _ _ hlen1, List.getElem_set]
    simp
  have hstep2 := set_no_resize_append hm1 A2
    (by rw [h1n, hm1grow]; omega)
    (by rw [hchain1]; simp)
  rw [hchain1] at hstep2
  have h2n : hm2.num_elements = 2 := by
    rw [h2, hstep2]
    show hm1.num_elements + 1 = 2
    rw [h1n]
  have hm2gh : hm2.get_hash = cfg.get_hash := by
    rw [h2, hstep2]
    show hm1.get_hash = cfg.get_hash
    exact hm1gh
  have hm2cmp : hm2.compare = cfg.compare := by
    rw [h2, hstep2]
    show hm1.compare = cfg.compare
    exact hm1cmp
  have hm2sz : hm2.sizes = cfg.sizes := by
    rw [h2, hstep2]
    show hm1.sizes = cfg.sizes
    exact hm1sz
  have hm2cur : hm2.cur_size = 0 := by
    rw [h2, hstep2]
    show hm1.cur_size = 0
    exact hm1cur
  have hB2 : hm2.bucket_array = hm1.bucket_array.set
      (hm1.get_hash A2 % hm1.sizes.getD hm1.cur_size 0)
      ([{ key := A, hash := cfg.get_hash A }] ++
        [{ key := A2, hash := hm1.get_hash A2 }]) := by
    rw [h2, hstep2]
  have hc4 : hm2.bucket_array.getD
      (cfg.get_hash A % cfg.sizes.getD 0 0) [] =
      [{ key := A, hash := cfg.get_hash A },
       { key := A2, hash := cfg.get_hash A2 }] := by
    rw [hB2, hB1, hm1gh, hm1sz, hm1cur, hhash,
      List.getD_eq_getElem _ _ (by simpa using idxlt), List.getElem_set]
    simp
  refine ⟨rfl, h1n, h2n, hc4, ?_⟩
  simp only [hashmap_getv, hashmap_get]
  rw [hm2gh, hm2sz, hm2cur, hc4, hm2cmp]
  simp [hashmap_find_in_bucket, hrefl]

theorem claim_C2_tail_collision_witness :
    (newD exCfg).num_elements = 0 ∧
    (setD (newD exCfg) 5).num_elements = 1 ∧
    (setD (setD (newD exCfg) 5) 5).num_elements = 2 ∧
    (setD (setD (newD exCfg) 5) 5).bucket_array.getD
        (exCfg.get_hash 5 % exCfg.sizes.getD 0 0) [] =
      [{ key := 5, hash := exCfg.get_hash 5 },
       { key := 5, hash := exCfg.get_hash 5 }] ∧
    hashmap_getv (setD (setD (newD exCfg) 5) 5) 5 = some 5 :=
  claim_C2_tail_collision exCfg 5 5 (by decide)
    (by norm_num [exCfg, Rat.floor_def']) rfl (by decide)
    (newD exCfg) (setD (newD exCfg) 5) (setD (setD (newD exCfg) 5) 5)
    rfl rfl rfl

/-- C1 counterexample: on the table reached from a fresh `exCfg` table
(sizes `[4, 8]`, load factor `3/4`) by inserting the keys 0, 1 and 2,
the table sits below the last growth size and
`element_count / sizes[size_index] = 3/4` is not strictly greater than
the load factor, yet the next `set` call still performs a resize (the
growth index advances from 0 to 1) — refuting the claimed
`element_count / sizes[size_index] > load_factor` trigger condition. -/
theorem claim_C1_counterexample_resize_at_equality :
    exT3.cur_size < exT3.sizes.length - 1 ∧
    ¬((exT3.num_elements : ℚ) / (exT3.sizes.getD exT3.cur_size 0 : ℚ) >
        exT3.load_factor) ∧
    (hashmap_set exT3 9 okPlan).2.1.cur_size = exT3.cur_size + 1 := by
  have h0 : newD exCfg =
      { get_hash := fun n => n
        compare := fun a b => if a = b then 0 else 1
        sizes := [4, 8]
        cur_size := 0
        num_elements := 0
        num_elements_grow := 3
        load_factor := 3/4
        copy_elements := false
        bucket_array := [[], [], [], []] } := by
    norm_num [newD, exCfg, hashmap_new, hashmap_allocate_bucket_array,
      Rat.floor_def', List.replicate]
    rfl
  have h3 : exT3 =
      { get_hash := fun n => n
        compare := fun a b => if a = b then 0 else 1
        sizes := [4, 8]
        cur_size := 0
        num_elements := 3
        num_elements_grow := 3
        load_factor := 3/4
        copy_elements := false
        bucket_array := [[{ key := 0, hash := 0 }], [{ key := 1, hash := 1 }],
          [{ key := 2, hash := 2 }], []] } := by
    unfold exT3
    rw [h0]
    rfl
  refine ⟨?_, ?_, ?_⟩
  · rw [h3]
    decide
  · rw [h3]
    norm_num
  · rw [h3]
    rfl

/-- C1 (amended): for every `set` call on a table whose `size_index` is
below `len(sizes) - 1` and whose resize allocation would succeed, a
resize is performed before inserting if and only if `element_count`
equals the stored growth threshold `⌊sizes[size_index] · load_factor⌋`
at the start of the call; otherwise no resize occurs during that
call. -/
theorem claim_C1_amended_resize_at_threshold (hm : HashMap K) (key : K)
    (plan : AllocPlan) (hok : plan.resize_array_ok = true)
    (hcur : hm.cur_size < hm.sizes.length - 1)
    (hgrow : hm.num_elements_grow =
      (((hm.sizes.getD hm.cur_size 0 : ℚ) * hm.load_factor).floor).toNat) :
    ((hashmap_set hm key plan).2.1.cur_size = hm.cur_size + 1 ↔
      hm.num_elements =
        (((hm.sizes.getD hm.cur_size 0 : ℚ) *
            hm.load_factor).floor).toNat) := by
  rw [← hgrow]
  by_cases hg : hm.num_elements = hm.num_elements_grow
  · have hlast : hm.cur_size ≠ hm.sizes.length - 1 := by omega
    simp only [hashmap_set, if_pos hg, hok,
      hashmap_resize_success hm hlast]
    rw [if_neg (by decide : ¬((0 : ℤ) < 0))]
    rw [(hashmap_add_key_frame _ key plan.key_copy_ok plan.node_ok).1]
    exact iff_of_true rfl hg
  · simp only [hashmap_set, if_neg hg]
    rw [(hashmap_add_key_frame hm key plan.key_copy_ok plan.node_ok).1]
    exact iff_of_false (by omega) hg

theorem claim_C1_amended_resize_at_threshold_witness :
    ((hashmap_set exC1Hm 9 okPlan).2.1.cur_size = exC1Hm.cur_size + 1 ↔
      exC1Hm.num_elements =
        (((exC1Hm.sizes.getD exC1Hm.cur_size 0 : ℚ) *
            exC1Hm.load_factor).floor).toNat) :=
  claim_C1_amended_resize_at_threshold exC1Hm 9 okPlan rfl (by decide)
    (by norm_num [exC1Hm, Rat.floor_def']; rfl)

/-- C9: with sizes `[4, 8, 16]` and load factor `3/4`, the first three
insertions into a fresh table leave the growth index at 0 (no resize);
the fourth insertion resizes to bucket count 8 before the fourth key
lands (the growth index advances to 1), and afterwards all four keys
are retrievable through `get`. -/
theorem claim_C9_concrete_scenario :
    (setD (newD exCfg3) 0).cur_size = 0 ∧
    (setD (setD (newD exCfg3) 0) 1).cur_size = 0 ∧
    exC9T3.cur_size = 0 ∧
    exC9T3.bucket_array.length = 4 ∧
    exC9T4.cur_size = 1 ∧
    exC9T4.bucket_array.length = 8 ∧
    exC9T4.num_elements = 4 ∧
    hashmap_getv exC9T4 0 = some 0 ∧
    hashmap_getv exC9T4 1 = some 1 ∧
    hashmap_getv exC9T4 2 = some 2 ∧
    hashmap_getv exC9T4 3 = some 3 := by
  have h0 : newD exCfg3 =
      { get_hash := fun n => n
        compare := fun a b => if a = b then 0 else 1
        sizes := [4, 8, 16]
        cur_size := 0
        num_elements := 0
        num_elements_grow := 3
        load_factor := 3/4
        copy_elements := false
        bucket_array := [[], [], [], []] } := by
    norm_num [newD, exCfg3, exCfg, hashmap_new,
      hashmap_allocate_bucket_array, Rat.floor_def', List.replicate]
    rfl
  have h3 : exC9T3 =
      { get_hash := fun n => n
        compare := fun a b => if a = b then 0 else 1
        sizes := [4, 8, 16]
        cur_size := 0
        num_elements := 3
        num_elements_grow := 3
        load_factor := 3/4
        copy_elements := false
        bucket_array := [[{ key := 0, hash := 0 }], [{ key := 1, hash := 1 }],
          [{ key := 2, hash := 2 }], []] } := by
    unfold exC9T3
    rw [h0]
    rfl
  refine ⟨?_, ?_, ?_, ?_, ?_, ?_, ?_, ?_, ?_, ?_, ?_⟩
  · rw [h0]
    rfl
  · rw [h0]
    rfl
  · rw [h3]
  · rw [h3]
    rfl
  · show (setD exC9T3 3).cur_size = 1
    rw [h3]
    rfl
  · show (setD exC9T3 3).bucket_array.length = 8
    rw [h3]
    rfl
  · show (setD exC9T3 3).num_elements = 4
    rw [h3]
    rfl
  · show hashmap_getv (setD exC9T3 3) 0 = some 0
    rw [h3]
    rfl
  · show hashmap_getv (setD exC9T3 3) 1 = some 1
    rw [h3]
    rfl
  · show hashmap_getv (setD exC9T3 3) 2 = some 2
    rw [h3]
    rfl
  · show hashmap_getv (setD exC9T3 3) 3 = some 3
    rw [h3]
    rfl

end HashMapC
